import Mathlib

/-!
Verification of the vault security core of the cocoon password manager,
shallowly embedded from `src-tauri/src/commands.rs`.

Conventions used throughout:

* Rust byte strings (`&[u8]`, `Vec<u8>`) are modelled as `List Nat` whose
  elements are `< 256`; `u8`/`u32` arithmetic carries an explicit `% 256`
  or `% 2 ^ 32` wherever the Rust code can wrap.
* Rust `String` values are modelled as `List Char`; `String::len()` (a UTF-8
  byte count) is `utf8Len`, `str::chars()` is the list itself.
* Randomness (`OsRng`) is modelled by passing the sampled values (nonces,
  salts, 32-bit draws) as explicit arguments to the embedded functions.
* Fallible Rust functions returning `Result<T, String>` become
  `Except String T`; error strings keep the constant prefix of the Rust
  `format!` message.
* Library primitives that are not part of this repository (Argon2 hashing,
  serde_json serialization, timestamps) are abstracted as explicit function
  parameters collected in the `Ext` structure.  AES-256-GCM, base64 and
  UTF-8 validation are implemented concretely below.
-/

namespace Cocoon

/-! ### Byte-level helpers -/

/-- Little-endian decomposition of a natural number into `n` bytes. -/
def toBytesLE : Nat → Nat → List Nat
  | 0, _ => []
  | n + 1, v => v % 256 :: toBytesLE n (v / 256)

/-- Big-endian decomposition of a natural number into `n` bytes. -/
def toBytesBE (n v : Nat) : List Nat :=
  (toBytesLE n v).reverse

/-- Little-endian recomposition of a byte list into a natural number. -/
def fromBytesLE : List Nat → Nat
  | [] => 0
  | b :: rest => b + 256 * fromBytesLE rest

/-- Big-endian recomposition of a byte list into a natural number. -/
def fromBytesBE (l : List Nat) : Nat :=
  fromBytesLE l.reverse

/-- Bytewise xor (`zipWith`); used for the CTR keystream application. -/
def xorBytes (a b : List Nat) : List Nat :=
  List.zipWith (· ^^^ ·) a b

/-! ### Base64 — models `base64::engine::general_purpose::STANDARD`
(standard alphabet, padded, strict decoding that rejects bad padding and
non-zero trailing bits). -/

/-- The standard base64 alphabet. -/
def b64Alphabet : List Char :=
  "ABCDEFGHIJKLMNOPQRSTUVWXYZabcdefghijklmnopqrstuvwxyz0123456789+/".toList

/-- Character for a 6-bit group. -/
def b64Char (n : Nat) : Char :=
  b64Alphabet.getD n 'A'

/-- Value of an alphabet character; `none` for anything else (including `=`). -/
def b64CharVal (c : Char) : Option Nat :=
  if 'A' ≤ c ∧ c ≤ 'Z' then some (c.toNat - 65)
  else if 'a' ≤ c ∧ c ≤ 'z' then some (c.toNat - 97 + 26)
  else if '0' ≤ c ∧ c ≤ '9' then some (c.toNat - 48 + 52)
  else if c = '+' then some 62
  else if c = '/' then some 63
  else none

/-- Base64 encoding of a byte list. -/
def b64Encode : List Nat → List Char
  | [] => []
  | [a] => [b64Char (a / 4), b64Char (a % 4 * 16), '=', '=']
  | [a, b] => [b64Char (a / 4), b64Char (a % 4 * 16 + b / 16), b64Char (b % 16 * 4), '=']
  | a :: b :: c :: rest =>
    b64Char (a / 4) :: b64Char (a % 4 * 16 + b / 16) ::
      b64Char (b % 16 * 4 + c / 64) :: b64Char (c % 64) :: b64Encode rest

/-- Strict base64 decoding (the `STANDARD` engine rejects mid-stream padding,
lengths not divisible by 4, and non-zero trailing bits). -/
def b64Decode : List Char → Except String (List Nat)
  | [] => .ok []
  | c1 :: c2 :: c3 :: c4 :: rest =>
    match b64CharVal c1, b64CharVal c2 with
    | some a1, some a2 =>
      if c3 = '=' then
        if c4 = '=' ∧ rest = [] ∧ a2 % 16 = 0 then .ok [a1 * 4 + a2 / 16]
        else .error "invalid base64"
      else
        match b64CharVal c3 with
        | some a3 =>
          if c4 = '=' then
            if rest = [] ∧ a3 % 4 = 0 then .ok [a1 * 4 + a2 / 16, a2 % 16 * 16 + a3 / 4]
            else .error "invalid base64"
          else
            match b64CharVal c4 with
            | some a4 =>
              (b64Decode rest).map
                (fun tail =>
                  (a1 * 4 + a2 / 16) :: (a2 % 16 * 16 + a3 / 4) :: (a3 % 4 * 64 + a4) :: tail)
            | none => .error "invalid base64"
        | none => .error "invalid base64"
    | _, _ => .error "invalid base64"
  | _ => .error "invalid base64"

/-! ### AES-256 (FIPS 197), byte-level

The state is the flat 16-byte list in input order (index `4*c + r` holds row
`r`, column `c`).  Bytes are `Nat` kept below 256 by an explicit `% 256` at
every byte-producing step (`u8` arithmetic). -/

/-- xor of two bytes (`u8` xor). -/
def byteXor (x y : Nat) : Nat :=
  (x ^^^ y) % 256

/-- Multiplication by `x` in GF(2^8) with the AES polynomial `0x11b`. -/
def xtime (x : Nat) : Nat :=
  ((2 * x) ^^^ (if 128 ≤ x % 256 then 0x1b else 0)) % 256

/-- Iterated GF(2^8) product (Russian-peasant over the 8 bits of `b`). -/
def gf8MulAux : Nat → Nat → Nat → Nat → Nat
  | 0, _, _, acc => acc
  | fuel + 1, a, b, acc =>
    gf8MulAux fuel (xtime a) (b / 2) (if b % 2 = 1 then byteXor acc a else acc)

/-- GF(2^8) multiplication. -/
def gf8Mul (a b : Nat) : Nat :=
  gf8MulAux 8 (a % 256) b 0

/-- GF(2^8) inverse as `x ^ 254` (maps 0 to 0, as the AES S-box needs). -/
def gf8Inv (x : Nat) : Nat :=
  let x2 := gf8Mul x x
  let x4 := gf8Mul x2 x2
  let x8 := gf8Mul x4 x4
  let x16 := gf8Mul x8 x8
  let x32 := gf8Mul x16 x16
  let x64 := gf8Mul x32 x32
  let x128 := gf8Mul x64 x64
  gf8Mul x128 (gf8Mul x64 (gf8Mul x32 (gf8Mul x16 (gf8Mul x8 (gf8Mul x4 x2)))))

/-- Rotate a byte left by `n` bits. -/
def rotl8 (v n : Nat) : Nat :=
  (v * 2 ^ n % 256) ||| (v % 256 / 2 ^ (8 - n))

/-- The AES S-box: GF(2^8) inverse followed by the affine transform. -/
def sbox (x : Nat) : Nat :=
  let b := gf8Inv (x % 256)
  (b ^^^ rotl8 b 1 ^^^ rotl8 b 2 ^^^ rotl8 b 3 ^^^ rotl8 b 4 ^^^ 0x63) % 256

/-- Key-schedule word operations (words are 4-byte lists). -/
def subWord (w : List Nat) : List Nat :=
  w.map sbox

def rotWord (w : List Nat) : List Nat :=
  match w with
  | [] => []
  | a :: rest => rest ++ [a]

def xorWord (a b : List Nat) : List Nat :=
  List.zipWith byteXor a b

/-- AES round constants (AES-256 uses rcon 1..7). -/
def rcon : Nat → Nat
  | 1 => 0x01
  | 2 => 0x02
  | 3 => 0x04
  | 4 => 0x08
  | 5 => 0x10
  | 6 => 0x20
  | 7 => 0x40
  | _ => 0

/-- Key expansion step; `ws` holds the words generated so far, newest first. -/
def expandAux : Nat → List (List Nat) → List (List Nat)
  | 0, ws => ws
  | fuel + 1, ws =>
    let i := ws.length
    let temp := ws.headD []
    let w8 := ws.getD 7 []
    let newW :=
      if i % 8 = 0 then xorWord w8 (xorWord (subWord (rotWord temp)) [rcon (i / 8), 0, 0, 0])
      else if i % 8 = 4 then xorWord w8 (subWord temp)
      else xorWord w8 temp
    expandAux fuel (newW :: ws)

/-- The 60 expanded key words of AES-256 (8 key words plus 52 generated). -/
def keyWords (key : List Nat) : List (List Nat) :=
  let w0 := (List.range 8).map (fun i => ((key.drop (4 * i)).take 4).map (· % 256))
  (expandAux 52 w0.reverse).reverse

/-- Round key `r` as 16 bytes. -/
def roundKey (ws : List (List Nat)) (r : Nat) : List Nat :=
  ((ws.drop (4 * r)).take 4).flatten

def subBytes (s : List Nat) : List Nat :=
  s.map sbox

def shiftRows (s : List Nat) : List Nat :=
  (List.range 16).map (fun i => s.getD (4 * ((i / 4 + i % 4) % 4) + i % 4) 0)

/-- One output byte of MixColumns for row `r` of a column `(a0,a1,a2,a3)`. -/
def mixCol (a0 a1 a2 a3 r : Nat) : Nat :=
  match r with
  | 0 => byteXor (byteXor (gf8Mul 2 a0) (gf8Mul 3 a1)) (byteXor a2 a3)
  | 1 => byteXor (byteXor a0 (gf8Mul 2 a1)) (byteXor (gf8Mul 3 a2) a3)
  | 2 => byteXor (byteXor a0 a1) (byteXor (gf8Mul 2 a2) (gf8Mul 3 a3))
  | _ => byteXor (byteXor (gf8Mul 3 a0) a1) (byteXor a2 (gf8Mul 2 a3))

def mixColumns (s : List Nat) : List Nat :=
  (List.range 16).map (fun i =>
    mixCol (s.getD (4 * (i / 4)) 0) (s.getD (4 * (i / 4) + 1) 0)
      (s.getD (4 * (i / 4) + 2) 0) (s.getD (4 * (i / 4) + 3) 0) (i % 4))

def addRoundKey (s k : List Nat) : List Nat :=
  (List.range 16).map (fun i => byteXor (s.getD i 0) (k.getD i 0))

def aesRound (rk s : List Nat) : List Nat :=
  addRoundKey (mixColumns (shiftRows (subBytes s))) rk

def aesFinalRound (rk s : List Nat) : List Nat :=
  addRoundKey (shiftRows (subBytes s)) rk

/-- AES-256 block encryption (14 rounds). -/
def aesEncryptBlock (key block : List Nat) : List Nat :=
  let ws := keyWords key
  let s0 := addRoundKey block (roundKey ws 0)
  aesFinalRound (roundKey ws 14)
    ((List.range 13).foldl (fun s r => aesRound (roundKey ws (r + 1)) s) s0)

/-! ### GCM mode (NIST SP 800-38D) with empty associated data, 96-bit nonces
and full 16-byte tags, as used by the `aes_gcm` crate (`Aes256Gcm`). -/

/-- The GHASH reduction constant `R` (bit-reflected field representation). -/
def gcmR : Nat :=
  0xe1000000000000000000000000000000

/-- GF(2^128) product, 128 shift-and-xor steps over the bits of `x`
from most significant to least significant. -/
def gcmMul (x y : Nat) : Nat :=
  ((List.range 128).foldl
    (fun zv i =>
      (if x.testBit (127 - i) then zv.1 ^^^ zv.2 else zv.1,
       if zv.2 % 2 = 1 then zv.2 / 2 ^^^ gcmR else zv.2 / 2))
    (0, y)).1

/-- GHASH over a list of 128-bit blocks. -/
def ghash (h : Nat) (blocks : List Nat) : Nat :=
  blocks.foldl (fun y x => gcmMul (y ^^^ x) h) 0

/-- Split a byte string into 128-bit integers, zero-padding the last chunk. -/
def chunks16 (l : List Nat) : List Nat :=
  if h : l = [] then []
  else
    fromBytesBE (l.take 16 ++ List.replicate (16 - l.length) 0) :: chunks16 (l.drop 16)
termination_by l.length
decreasing_by
  have : l.length ≠ 0 := fun hl => h (List.eq_nil_of_length_eq_zero hl)
  simp [List.length_drop]
  omega

/-- The 32-bit big-endian counter block `nonce ∥ i`. -/
def gcmCounterBlock (nonce : List Nat) (i : Nat) : List Nat :=
  nonce ++ toBytesBE 4 i

/-- CTR keystream of `n` bytes (counters start at 2; counter 1 masks the tag). -/
def gcmKeystream (key nonce : List Nat) (n : Nat) : List Nat :=
  (((List.range ((n + 15) / 16)).map
    (fun i => aesEncryptBlock key (gcmCounterBlock nonce (i + 2)))).flatten).take n

/-- The length block for empty AAD: `0 ∥ 8·|C|` as a 128-bit integer. -/
def gcmLenBlock (ctLen : Nat) : Nat :=
  (8 * ctLen) % 2 ^ 64

/-- The authentication tag as a 128-bit integer. -/
def gcmTagNat (key nonce ct : List Nat) : Nat :=
  let h := fromBytesBE (aesEncryptBlock key (List.replicate 16 0))
  let ek := fromBytesBE (aesEncryptBlock key (gcmCounterBlock nonce 1))
  ghash h (chunks16 ct ++ [gcmLenBlock ct.length]) ^^^ ek

/-- The authentication tag as 16 bytes. -/
def gcmTag (key nonce ct : List Nat) : List Nat :=
  toBytesBE 16 (gcmTagNat key nonce ct)

/-- AEAD encryption: ciphertext with the tag appended (`Aead::encrypt`). -/
def gcmEncrypt (key nonce pt : List Nat) : List Nat :=
  let ct := xorBytes pt (gcmKeystream key nonce pt.length)
  ct ++ gcmTag key nonce ct

/-- AEAD decryption: split off the tag, recompute it over the ciphertext and
fail closed unless it matches (`Aead::decrypt`). -/
def gcmDecrypt (key nonce data : List Nat) : Option (List Nat) :=
  if data.length < 16 then none
  else if gcmTag key nonce (data.take (data.length - 16)) = data.drop (data.length - 16) then
    some (xorBytes (data.take (data.length - 16))
      (gcmKeystream key nonce (data.take (data.length - 16)).length))
  else none

/-! ### UTF-8 validity and string helpers -/

/-- Is `b` a UTF-8 continuation byte? -/
def utf8Cont (b : Nat) : Bool :=
  decide (128 ≤ b ∧ b ≤ 191)

/-- UTF-8 validity of a byte string (the RFC 3629 well-formedness table);
models `String::from_utf8` succeeding. -/
def utf8Valid : List Nat → Bool
  | [] => true
  | b :: rest =>
    if b ≤ 0x7F then utf8Valid rest
    else if 0xC2 ≤ b ∧ b ≤ 0xDF then
      match rest with
      | c1 :: r => utf8Cont c1 && utf8Valid r
      | [] => false
    else if b = 0xE0 then
      match rest with
      | c1 :: c2 :: r => decide (0xA0 ≤ c1 ∧ c1 ≤ 0xBF) && utf8Cont c2 && utf8Valid r
      | _ => false
    else if (0xE1 ≤ b ∧ b ≤ 0xEC) ∨ b = 0xEE ∨ b = 0xEF then
      match rest with
      | c1 :: c2 :: r => utf8Cont c1 && utf8Cont c2 && utf8Valid r
      | _ => false
    else if b = 0xED then
      match rest with
      | c1 :: c2 :: r => decide (0x80 ≤ c1 ∧ c1 ≤ 0x9F) && utf8Cont c2 && utf8Valid r
      | _ => false
    else if b = 0xF0 then
      match rest with
      | c1 :: c2 :: c3 :: r =>
        decide (0x90 ≤ c1 ∧ c1 ≤ 0xBF) && utf8Cont c2 && utf8Cont c3 && utf8Valid r
      | _ => false
    else if 0xF1 ≤ b ∧ b ≤ 0xF3 then
      match rest with
      | c1 :: c2 :: c3 :: r => utf8Cont c1 && utf8Cont c2 && utf8Cont c3 && utf8Valid r
      | _ => false
    else if b = 0xF4 then
      match rest with
      | c1 :: c2 :: c3 :: r =>
        decide (0x80 ≤ c1 ∧ c1 ≤ 0x8F) && utf8Cont c2 && utf8Cont c3 && utf8Valid r
      | _ => false
    else false

/-- UTF-8 byte length of a Rust `String` modelled as a char list
(Rust `String::len()`). -/
def utf8Len (s : List Char) : Nat :=
  (s.map Char.utf8Size).sum

/-! ### `encrypt_data` / `decrypt_data` (commands.rs lines 678–710) -/

/-- Rust `encrypt_data`: AES-256-GCM-encrypt the data with a freshly sampled
96-bit nonce, then base64-encode both the `ciphertext ∥ tag` and the nonce.
The nonce sampled from `OsRng` by `generate_nonce` is an explicit argument. -/
def encrypt_data (data key nonce : List Nat) : List Char × List Char :=
  (b64Encode (gcmEncrypt key nonce data), b64Encode nonce)

/-- Rust `decrypt_data`: base64-decode the stored fields, AEAD-decrypt, and check
the result is UTF-8.  (`Nonce::from_slice` aborts the process on a nonce of
the wrong length; that divergence is modelled as an error value.) -/
def decrypt_data (encrypted nonceStr : List Char) (key : List Nat) :
    Except String (List Nat) :=
  match b64Decode encrypted with
  | .error _ => .error "Failed to decode ciphertext"
  | .ok ctBytes =>
    match b64Decode nonceStr with
    | .error _ => .error "Failed to decode nonce"
    | .ok nb =>
      if nb.length = 12 then
        match gcmDecrypt key nb ctBytes with
        | none => .error "Decryption failed"
        | some pt =>
          if utf8Valid pt then .ok pt else .error "Invalid UTF-8 in decrypted data"
      else .error "invalid nonce length"

/-! ### Data model (commands.rs lines 39–78) -/

/-- Rust `PasswordEntry`.  Rust `String` fields are char lists; the chrono
timestamps stay opaque. -/
structure PasswordEntry where
  id : Nat
  title : List Char
  username : List Char
  password : List Char
  url : Option (List Char)
  notes : Option (List Char)
  created_at : String
  modified_at : String
  password_strength : Nat
deriving DecidableEq

/-- Rust `EncryptedPasswordStore`, the on-disk container (all four text fields are
base64 strings in the file). -/
structure EncryptedPasswordStore where
  encrypted_data : List Char
  nonce : List Char
  salt : List Char
  iterations : Nat
  version : Nat
deriving DecidableEq

/-- Rust `PasswordStore`, the decrypted in-memory store. -/
structure PasswordStore where
  entries : List PasswordEntry
  next_id : Nat
  created_at : String
  last_backup : Option String
deriving DecidableEq

/-- Rust `PasswordStore::default()`; the `chrono::Utc::now()` timestamp is a
parameter. -/
def PasswordStore.default (now : String) : PasswordStore :=
  { entries := [], next_id := 1, created_at := now, last_backup := none }

/-- The parsed Argon2 PHC record stored in `master.hash`: its embedded salt
bytes (`parsed_hash.salt.unwrap().as_str().as_bytes()`) and its digest. -/
structure MasterVerifier where
  salt : List Nat
  hash : List Nat
deriving DecidableEq

/-- The two files of the vault (`master.hash` and `vault.cocoon`);
`none` models a missing file. -/
structure VaultDisk where
  masterHash : Option MasterVerifier
  container : Option EncryptedPasswordStore
deriving DecidableEq

/-- External library primitives used by the commands but implemented outside
this repository: the Argon2 raw KDF (`hash_password_into`, producing the
32-byte key), Argon2 PHC hashing (`hash_password`; `verify_password`
recomputes the digest from the stored salt and compares), serde_json
(de)serialization of the store, and the `chrono` timestamp. -/
structure Ext where
  kdf : List Char → List Nat → List Nat
  phc : List Char → List Nat → List Nat
  serializeStore : PasswordStore → List Nat
  parseStore : List Nat → Except String PasswordStore
  now : String

/-! ### Authentication and persistence commands (commands.rs lines 713–838) -/

/-- Rust `verify_master_password`: read the verifier, check the password against
it, and on success re-derive the encryption key from the embedded salt. -/
def verify_master_password (E : Ext) (pw : List Char) (d : VaultDisk) :
    Except String (List Nat) :=
  match d.masterHash with
  | none => .error "Master password not set"
  | some v =>
    if E.phc pw v.salt = v.hash then .ok (E.kdf pw v.salt)
    else .error "Invalid master password"

/-- Rust `load_encrypted_store`: read and parse the container file. -/
def load_encrypted_store (d : VaultDisk) : Except String EncryptedPasswordStore :=
  match d.container with
  | none => .error "Encrypted store not found"
  | some c => .ok c

/-- Rust `save_encrypted_store`: overwrite the whole container file. -/
def save_encrypted_store (c : EncryptedPasswordStore) (d : VaultDisk) : VaultDisk :=
  { d with container := some c }

/-- Rust `load_password_store`: verify the password, decrypt the container and
parse the store. -/
def load_password_store (E : Ext) (pw : List Char) (d : VaultDisk) :
    Except String PasswordStore :=
  match verify_master_password E pw d with
  | .error e => .error e
  | .ok key =>
    match load_encrypted_store d with
    | .error e => .error e
    | .ok c =>
      match decrypt_data c.encrypted_data c.nonce key with
      | .error e => .error e
      | .ok bytes =>
        match E.parseStore bytes with
        | .error _ => .error "Failed to parse decrypted store"
        | .ok s => .ok s

/-- Rust `save_password_store`: verify the password, re-encrypt the serialized
store under a freshly sampled nonce, and write the container back keeping
the previous `salt`/`iterations`/`version` metadata (an empty container is
used when none exists yet). -/
def save_password_store (E : Ext) (store : PasswordStore) (pw : List Char)
    (nonce : List Nat) (d : VaultDisk) : Except String VaultDisk :=
  match verify_master_password E pw d with
  | .error e => .error e
  | .ok key =>
    match d.container with
    | some c =>
      .ok (save_encrypted_store { c with
        encrypted_data := (encrypt_data (E.serializeStore store) key nonce).1,
        nonce := (encrypt_data (E.serializeStore store) key nonce).2 } d)
    | none =>
      .ok (save_encrypted_store
        { encrypted_data := (encrypt_data (E.serializeStore store) key nonce).1,
          nonce := (encrypt_data (E.serializeStore store) key nonce).2,
          salt := [], iterations := 100000, version := 1 } d)

/-- Rust `setup_master_password`: reject passwords of fewer than 8 bytes, hash the
password under a fresh salt, write the verifier, and create the initial
encrypted store.  The fresh salt string bytes and the AEAD nonce are explicit
arguments. -/
def setup_master_password (E : Ext) (pw : List Char) (saltStr nonce : List Nat) :
    Except String VaultDisk :=
  if utf8Len pw < 8 then .error "Master password must be at least 8 characters long"
  else
    .ok { masterHash := some { salt := saltStr, hash := E.phc pw saltStr },
          container := some
            { encrypted_data :=
                (encrypt_data (E.serializeStore (PasswordStore.default E.now))
                  (E.kdf pw saltStr) nonce).1,
              nonce :=
                (encrypt_data (E.serializeStore (PasswordStore.default E.now))
                  (E.kdf pw saltStr) nonce).2,
              salt := b64Encode saltStr,
              iterations := 100000,
              version := 1 } }

/-! ### Password strength (commands.rs lines 840–893) -/

/-- The fixed punctuation set of the strength scorer and of the generator
(the two brace characters are written as hex escapes). -/
def symbolSet : List Char :=
  "!@#$%^&*()_+-=[]".toList ++ ['\x7b', '\x7d'] ++ "|;:,.<>?".toList

/-- Lowercasing of a Rust string (`str::to_lowercase`, modelled on the
ASCII-range case mapping). -/
def lowerStr (s : List Char) : List Char :=
  s.map Char.toLower

/-- Substring containment, Rust `str::contains(&str)`. -/
def strContains (hay needle : List Char) : Bool :=
  match hay with
  | [] => needle.isEmpty
  | h :: t => needle.isPrefixOf (h :: t) || strContains t needle

/-- Three identical consecutive characters (the `windows(3)` check). -/
def hasTripleRepeat : List Char → Bool
  | a :: b :: c :: rest =>
    (decide (a = b) && decide (b = c)) || hasTripleRepeat (b :: c :: rest)
  | _ => false

/-- Rust `calculate_password_strength`, translated step for step:
`password.len()` is the UTF-8 byte count, the character classes are the
ASCII ones, uniqueness counts distinct characters, the penalty checks the
two blacklist substrings on the lowercased password but the triple repeat
on the original character sequence, `saturating_sub` is `Nat` subtraction
and the final `min` clamps to 100. -/
def calculate_password_strength (password : List Char) : Nat :=
  let len := utf8Len password
  let s1 := if 8 ≤ len then 20 else 0
  let s2 := s1 + (if 12 ≤ len then 15 else 0)
  let s3 := s2 + (if 16 ≤ len then 10 else 0)
  let s4 := s3 + (if password.any (fun c => c.isLower) then 5 else 0)
  let s5 := s4 + (if password.any (fun c => c.isUpper) then 5 else 0)
  let s6 := s5 + (if password.any (fun c => c.isDigit) then 5 else 0)
  let s7 := s6 + (if password.any (fun c => symbolSet.contains c) then 10 else 0)
  let s8 := s7 + (if password.dedup.length > len / 2 then 10 else 0)
  let s9 := if strContains (lowerStr password) "password".toList
      || strContains (lowerStr password) "123456".toList
      || hasTripleRepeat password then s8 - 20 else s8
  min s9 100

/-- The scoring formula exactly as the spec states it (§4.6): all the bonus
terms, a −20 penalty floored at 0 when the *lowercased* password contains
`"password"`, `"123456"` or a run of three identical consecutive characters,
and a final clamp into [0,100]; "unique characters exceed half the length"
is `2·unique > length`. -/
def spec_password_strength (password : List Char) : Nat :=
  let len := utf8Len password
  let bonuses :=
    (if 8 ≤ len then 20 else 0) + (if 12 ≤ len then 15 else 0)
    + (if 16 ≤ len then 10 else 0)
    + (if password.any (fun c => c.isLower) then 5 else 0)
    + (if password.any (fun c => c.isUpper) then 5 else 0)
    + (if password.any (fun c => c.isDigit) then 5 else 0)
    + (if password.any (fun c => symbolSet.contains c) then 10 else 0)
    + (if 2 * password.dedup.length > len then 10 else 0)
  let penalty := if strContains (lowerStr password) "password".toList
      || strContains (lowerStr password) "123456".toList
      || hasTripleRepeat (lowerStr password) then 20 else 0
  min (bonuses - penalty) 100

/-- The spec formula amended to what the code computes: the triple-repeat
check runs on the original (not lowercased) character sequence. -/
def spec_password_strength_amended (password : List Char) : Nat :=
  let len := utf8Len password
  let bonuses :=
    (if 8 ≤ len then 20 else 0) + (if 12 ≤ len then 15 else 0)
    + (if 16 ≤ len then 10 else 0)
    + (if password.any (fun c => c.isLower) then 5 else 0)
    + (if password.any (fun c => c.isUpper) then 5 else 0)
    + (if password.any (fun c => c.isDigit) then 5 else 0)
    + (if password.any (fun c => symbolSet.contains c) then 10 else 0)
    + (if 2 * password.dedup.length > len then 10 else 0)
  let penalty := if strContains (lowerStr password) "password".toList
      || strContains (lowerStr password) "123456".toList
      || hasTripleRepeat password then 20 else 0
  min (bonuses - penalty) 100

/-! ### Entry repository (commands.rs lines 950–1062) -/

/-- The pure store mutation inside `add_entry`: assign `next_id`, stamp both
timestamps, compute the strength, push, and increment the `u32` counter
(wrapping `u32` arithmetic is an explicit `% 2^32`). -/
def addEntryStore (s : PasswordStore) (title username password : List Char)
    (url notes : Option (List Char)) (now : String) : PasswordStore × Nat :=
  ({ s with
      entries := s.entries ++
        [{ id := s.next_id, title := title, username := username, password := password,
           url := url, notes := notes, created_at := now, modified_at := now,
           password_strength := calculate_password_strength password }],
      next_id := (s.next_id + 1) % 2 ^ 32 },
   s.next_id)

/-- The pure store mutation inside `delete_entry`: `position` plus `remove`
deletes the first entry with the given id (an absent id leaves the list
unchanged; the command errors before saving in that case). -/
def deleteEntryStore (s : PasswordStore) (id : Nat) : PasswordStore :=
  { s with entries := s.entries.eraseP (fun e => e.id == id) }

/-- Replace the first element satisfying `p` (Rust `iter_mut().find(..)`
followed by an in-place mutation). -/
def updateFirst (p : α → Bool) (f : α → α) : List α → List α
  | [] => []
  | x :: xs => if p x then f x :: xs else x :: updateFirst p f xs

/-- Rust `add_entry`: load, mutate, save; the pair also carries the on-disk state
after the call. -/
def add_entry (E : Ext) (title username password : List Char)
    (url notes : Option (List Char)) (masterPassword : List Char)
    (nonce : List Nat) (d : VaultDisk) : Except String Nat × VaultDisk :=
  match load_password_store E masterPassword d with
  | .error e => (.error e, d)
  | .ok store =>
    match save_password_store E (addEntryStore store title username password url notes E.now).1
        masterPassword nonce d with
    | .error e => (.error e, d)
    | .ok d2 => (.ok (addEntryStore store title username password url notes E.now).2, d2)

/-- The field replacement `update_entry` performs on the found entry:
replace the mutable fields, re-stamp `modified_at`, recompute the
strength. -/
def updateEntryFields (title username password : List Char)
    (url notes : Option (List Char)) (now : String) (e : PasswordEntry) : PasswordEntry :=
  { e with title := title, username := username, password := password,
           url := url, notes := notes, modified_at := now,
           password_strength := calculate_password_strength password }

/-- Rust `update_entry`: load, find the entry by id, replace its mutable fields,
save; absent ids error without saving. -/
def update_entry (E : Ext) (id : Nat) (title username password : List Char)
    (url notes : Option (List Char)) (masterPassword : List Char)
    (nonce : List Nat) (d : VaultDisk) : Except String Unit × VaultDisk :=
  match load_password_store E masterPassword d with
  | .error e => (.error e, d)
  | .ok store =>
    if store.entries.any (fun e => e.id == id) then
      match save_password_store E
          { store with
            entries := updateFirst (fun e => e.id == id)
              (updateEntryFields title username password url notes E.now) store.entries }
          masterPassword nonce d with
      | .error e => (.error e, d)
      | .ok d2 => (.ok (), d2)
    else (.error "Entry not found", d)

/-- Rust `delete_entry`: load, remove the entry by id, save; absent ids error
without saving. -/
def delete_entry (E : Ext) (id : Nat) (masterPassword : List Char)
    (nonce : List Nat) (d : VaultDisk) : Except String Unit × VaultDisk :=
  match load_password_store E masterPassword d with
  | .error e => (.error e, d)
  | .ok store =>
    if store.entries.any (fun e => e.id == id) then
      match save_password_store E (deleteEntryStore store id) masterPassword nonce d with
      | .error e => (.error e, d)
      | .ok d2 => (.ok (), d2)
    else (.error "Entry not found", d)

/-- The filtering core of `search_entries`: an empty query returns all
entries, otherwise keep the entries whose lowercased title, username or URL
(when present) contains the lowercased query. -/
def searchStore (query : List Char) (entries : List PasswordEntry) : List PasswordEntry :=
  if query.isEmpty then entries
  else entries.filter (fun e =>
    strContains (lowerStr e.title) (lowerStr query) ||
    strContains (lowerStr e.username) (lowerStr query) ||
    (match e.url with
     | some u => strContains (lowerStr u) (lowerStr query)
     | none => false))

/-- Rust `search_entries`: load the store and filter it. -/
def search_entries (E : Ext) (query masterPassword : List Char) (d : VaultDisk) :
    Except String (List PasswordEntry) :=
  match load_password_store E masterPassword d with
  | .error e => .error e
  | .ok s => .ok (searchStore query s.entries)

/-- The spec's matching predicate for `search`: the query is a
case-insensitive substring of the title, of the username, or of the URL when
one is present. -/
def SpecMatch (query : List Char) (e : PasswordEntry) : Prop :=
  lowerStr query <:+: lowerStr e.title ∨ lowerStr query <:+: lowerStr e.username ∨
    ∃ u, e.url = some u ∧ lowerStr query <:+: lowerStr u

instance (query : List Char) (e : PasswordEntry) : Decidable (SpecMatch query e) := by
  unfold SpecMatch
  infer_instance

/-! ### Password generator (commands.rs lines 1072–1112) -/

def lowercaseChars : List Char := "abcdefghijklmnopqrstuvwxyz".toList

def uppercaseChars : List Char := "ABCDEFGHIJKLMNOPQRSTUVWXYZ".toList

def digitChars : List Char := "0123456789".toList

/-- The character pool built by `generate_password`, in the build order of
the code (lowercase, uppercase, digits, symbols). -/
def passwordCharset (includeUppercase includeLowercase includeNumbers includeSymbols : Bool) :
    List Char :=
  (if includeLowercase then lowercaseChars else []) ++
    (if includeUppercase then uppercaseChars else []) ++
    (if includeNumbers then digitChars else []) ++
    (if includeSymbols then symbolSet else [])

/-- The index drawn for one character:
`(rng.next_u32() as usize) % chars.len()`. -/
def drawIndex (r n : Nat) : Nat :=
  r % n

/-- Rust `generate_password`; `rng i` is the value of the `i`-th `next_u32()`
call on `OsRng`. -/
def generate_password (length : Nat)
    (includeUppercase includeLowercase includeNumbers includeSymbols : Bool)
    (rng : Nat → Nat) : Except String (List Char) :=
  if length < 4 ∨ 128 < length then
    .error "Password length must be between 4 and 128 characters"
  else if (passwordCharset includeUppercase includeLowercase includeNumbers
      includeSymbols).isEmpty then
    .error "At least one character type must be selected"
  else
    .ok ((List.range length).map (fun i =>
      (passwordCharset includeUppercase includeLowercase includeNumbers includeSymbols).getD
        (drawIndex (rng i)
          (passwordCharset includeUppercase includeLowercase includeNumbers
            includeSymbols).length) 'a'))

/-- How many of the 2^32 equally likely `next_u32` values select pool index
`i` under the `% n` reduction of `generate_password`. -/
def selectionCount (n i : Nat) : Nat :=
  ((Finset.range (2 ^ 32)).filter (fun r => drawIndex r n = i)).card

/-! ### Session Guard (spec §4.4) -/

/-- Result of an `authenticate` call. -/
inductive AuthResult where
  | success
  | invalidPassword
  | locked
deriving DecidableEq

/-- Modelled from the spec: the `SessionState` of §3 — the Session Guard
component (failed-attempt lockout) is not among the sources under `src/`;
only the verification commands are.  Times are in seconds. -/
structure SessionState where
  failedAttempts : Nat
  lockedUntil : Option Nat
  unlocked : Bool
  lastActivity : Nat
deriving DecidableEq

/-- The 5-minute lockout window, in seconds. -/
def lockoutWindow : Nat := 300

/-- The failed-attempt threshold. -/
def maxFailedAttempts : Nat := 5

/-- Modelled from the spec: the process starts `Locked` with no failures. -/
def initialSession : SessionState :=
  { failedAttempts := 0, lockedUntil := none, unlocked := false, lastActivity := 0 }

/-- Modelled from the spec (§4.4, §7, §9): an authentication attempt outside
any active lockout; `ok` says whether the password matches the verifier.
Success resets the counter, clears `locked_until` and stores the key
(`unlocked`); failure increments `failed_attempts` and, once it reaches 5,
sets `locked_until = now + 5 min` (the counter keeps accumulating across
expired windows). -/
def attemptAuth (now : Nat) (ok : Bool) (s : SessionState) : AuthResult × SessionState :=
  if ok then
    (.success,
     { failedAttempts := 0, lockedUntil := none, unlocked := true, lastActivity := now })
  else
    if maxFailedAttempts ≤ s.failedAttempts + 1 then
      (.invalidPassword,
       { s with failedAttempts := s.failedAttempts + 1,
                lockedUntil := some (now + lockoutWindow) })
    else
      (.invalidPassword, { s with failedAttempts := s.failedAttempts + 1 })

/-- Modelled from the spec (§4.4): `authenticate` fails with `Locked` while
`now < locked_until`; once the window has elapsed a new attempt is
permitted. -/
def authenticate (now : Nat) (ok : Bool) (s : SessionState) : AuthResult × SessionState :=
  match s.lockedUntil with
  | some t => if now < t then (.locked, s) else attemptAuth now ok s
  | none => attemptAuth now ok s

/-! ### Operation sequences over the store (for the id-monotonicity claim) -/

/-- One repository mutation. -/
inductive VaultOp where
  | addOp (title username password : List Char) (url notes : Option (List Char)) (now : String)
  | delOp (id : Nat)

/-- Apply one mutation to the in-memory store. -/
def applyOp (s : PasswordStore) : VaultOp → PasswordStore
  | .addOp t u p url notes now => (addEntryStore s t u p url notes now).1
  | .delOp i => deleteEntryStore s i

/-- Run a sequence of mutations. -/
def runOps (s : PasswordStore) (ops : List VaultOp) : PasswordStore :=
  ops.foldl applyOp s

/-- The ids handed out by the `add` operations of a run, in order. -/
def issuedIds (s : PasswordStore) : List VaultOp → List Nat
  | [] => []
  | .addOp t u p url notes now :: rest =>
    s.next_id :: issuedIds (applyOp s (.addOp t u p url notes now)) rest
  | .delOp i :: rest => issuedIds (applyOp s (.delOp i)) rest

/-- Number of `add` operations in a sequence. -/
def addCount : List VaultOp → Nat
  | [] => 0
  | .addOp _ _ _ _ _ _ :: rest => addCount rest + 1
  | .delOp _ :: rest => addCount rest

/-- The store invariant of spec §3: `next_id` exceeds every present id. -/
def StoreInv (s : PasswordStore) : Prop :=
  ∀ e ∈ s.entries, e.id < s.next_id

/-- A fixed `add` operation (used to drive the counter). -/
def demoAddOp : VaultOp :=
  .addOp [] [] [] none none ""

/-! ### Concrete stubs used by the closed witnesses -/

/-- Concrete instantiation of the external primitives for witnesses (the
stub serializer emits the empty byte string, which is valid UTF-8; the stub
parser returns the default store). -/
def stubExt : Ext :=
  { kdf := fun _ _ => List.replicate 32 0,
    phc := fun _ _ => [],
    serializeStore := fun _ => [],
    parseStore := fun _ => .ok (PasswordStore.default "t"),
    now := "t" }

/-- A concrete container produced by encrypting the stub serialization. -/
def demoContainer : EncryptedPasswordStore :=
  { encrypted_data := (encrypt_data [] (List.replicate 32 0) (List.replicate 12 0)).1,
    nonce := (encrypt_data [] (List.replicate 32 0) (List.replicate 12 0)).2,
    salt := [],
    iterations := 100000,
    version := 1 }

/-- A concrete disk on which `load_password_store` succeeds with `stubExt`. -/
def demoDisk : VaultDisk :=
  { masterHash := some { salt := [], hash := [] }, container := some demoContainer }

/-- The session state after five consecutive failed attempts from process
start, at times `t1 ≤ … ≤ t5` (the times are in fact arbitrary). -/
def sessionAfterFiveFailures (t1 t2 t3 t4 t5 : Nat) : SessionState :=
  (authenticate t5 false (authenticate t4 false (authenticate t3 false
    (authenticate t2 false (authenticate t1 false initialSession).2).2).2).2).2

theorem length_toBytesLE (n v : Nat) : (toBytesLE n v).length = n := by
  induction n generalizing v with
  | zero => rfl
  | succ n ih => simp [toBytesLE, ih]

theorem length_toBytesBE (n v : Nat) : (toBytesBE n v).length = n := by
  simp [toBytesBE, length_toBytesLE]

theorem mem_toBytesLE_lt {n v b : Nat} (h : b ∈ toBytesLE n v) : b < 256 := by
  induction n generalizing v with
  | zero => simp [toBytesLE] at h
  | succ n ih =>
    simp only [toBytesLE, List.mem_cons] at h
    rcases h with h | h
    · omega
    · exact ih h

theorem mem_toBytesBE_lt {n v b : Nat} (h : b ∈ toBytesBE n v) : b < 256 :=
  mem_toBytesLE_lt (List.mem_reverse.mp h)

theorem toBytesLE_mod (n v : Nat) : toBytesLE n (v % 256 ^ n) = toBytesLE n v := by
  induction n generalizing v with
  | zero => rfl
  | succ n ih =>
    have hdvd : (256 : Nat) ∣ 256 ^ (n + 1) := dvd_pow_self _ (Nat.succ_ne_zero n)
    have h1 : v % 256 ^ (n + 1) % 256 = v % 256 := Nat.mod_mod_of_dvd v hdvd
    have h2 : v % 256 ^ (n + 1) / 256 = v / 256 % 256 ^ n := by
      rw [pow_succ, mul_comm, Nat.mod_mul_right_div_self]
    simp [toBytesLE, h1, h2, ih]

theorem toBytesBE_mod (n v : Nat) : toBytesBE n (v % 256 ^ n) = toBytesBE n v := by
  simp [toBytesBE, toBytesLE_mod]

theorem fromBytesLE_toBytesLE (n v : Nat) : fromBytesLE (toBytesLE n v) = v % 256 ^ n := by
  induction n generalizing v with
  | zero => simp [toBytesLE, fromBytesLE, Nat.mod_one]
  | succ n ih =>
    rw [pow_succ, mul_comm, Nat.mod_mul]
    simp [toBytesLE, fromBytesLE, ih]

theorem toBytesLE_injOn {n a b : Nat} (ha : a < 256 ^ n) (hb : b < 256 ^ n)
    (h : toBytesLE n a = toBytesLE n b) : a = b := by
  have := congrArg fromBytesLE h
  rwa [fromBytesLE_toBytesLE, fromBytesLE_toBytesLE, Nat.mod_eq_of_lt ha,
    Nat.mod_eq_of_lt hb] at this

theorem length_xorBytes (a b : List Nat) :
    (xorBytes a b).length = min a.length b.length := by
  simp [xorBytes]

theorem xorBytes_cancel : ∀ (a b : List Nat), a.length ≤ b.length →
    xorBytes (xorBytes a b) b = a := by
  intro a
  induction a with
  | nil => intro b _; rfl
  | cons x xs ih =>
    intro b hb
    cases b with
    | nil => simp at hb
    | cons y ys =>
      have hlen : xs.length ≤ ys.length := by
        simpa using Nat.le_of_succ_le_succ hb
      simp only [xorBytes, List.zipWith_cons_cons, List.cons.injEq]
      exact ⟨Nat.xor_cancel_right y x, ih ys hlen⟩

theorem b64CharVal_b64Char : ∀ n < 64, b64CharVal (b64Char n) = some n := by decide

theorem b64Char_ne_pad : ∀ n < 64, b64Char n ≠ '=' := by decide

/-- Decoding inverts encoding on genuine byte lists. -/
theorem b64Decode_b64Encode : ∀ l : List Nat, (∀ b ∈ l, b < 256) →
    b64Decode (b64Encode l) = .ok l
  | [], _ => rfl
  | [a], h => by
    have ha : a < 256 := h a (by simp)
    have h1 : a / 4 < 64 := by omega
    have h2 : a % 4 * 16 < 64 := by omega
    have hm : a % 4 * 16 % 16 = 0 := by omega
    have e1 : a / 4 * 4 + a % 4 * 16 / 16 = a := by omega
    simp only [b64Encode, b64Decode, b64CharVal_b64Char _ h1, b64CharVal_b64Char _ h2]
    simp [hm, e1]
    omega
  | [a, b], h => by
    have ha : a < 256 := h a (by simp)
    have hb : b < 256 := h b (by simp)
    have h1 : a / 4 < 64 := by omega
    have h2 : a % 4 * 16 + b / 16 < 64 := by omega
    have h3 : b % 16 * 4 < 64 := by omega
    have hne : b64Char (b % 16 * 4) ≠ '=' := b64Char_ne_pad _ h3
    have hm : b % 16 * 4 % 4 = 0 := by omega
    have e1 : a / 4 * 4 + (a % 4 * 16 + b / 16) / 16 = a := by omega
    have e2 : (a % 4 * 16 + b / 16) % 16 * 16 + b % 16 * 4 / 4 = b := by omega
    simp only [b64Encode, b64Decode, b64CharVal_b64Char _ h1, b64CharVal_b64Char _ h2,
      b64CharVal_b64Char _ h3, if_neg hne]
    simp [hm, e1, e2]
    omega
  | a :: b :: c :: rest', h => by
    have ha : a < 256 := h a (by simp)
    have hb : b < 256 := h b (by simp)
    have hc : c < 256 := h c (by simp)
    have h1 : a / 4 < 64 := by omega
    have h2 : a % 4 * 16 + b / 16 < 64 := by omega
    have h3 : b % 16 * 4 + c / 64 < 64 := by omega
    have h4 : c % 64 < 64 := by omega
    have hne3 : b64Char (b % 16 * 4 + c / 64) ≠ '=' := b64Char_ne_pad _ h3
    have hne4 : b64Char (c % 64) ≠ '=' := b64Char_ne_pad _ h4
    have e1 : a / 4 * 4 + (a % 4 * 16 + b / 16) / 16 = a := by omega
    have e2 : (a % 4 * 16 + b / 16) % 16 * 16 + (b % 16 * 4 + c / 64) / 4 = b := by omega
    have e3 : (b % 16 * 4 + c / 64) % 4 * 64 + c % 64 = c := by omega
    match rest' with
    | [] =>
      show b64Decode (b64Char (a / 4) :: b64Char (a % 4 * 16 + b / 16) ::
        b64Char (b % 16 * 4 + c / 64) :: b64Char (c % 64) :: b64Encode ([] : List Nat)) = _
      simp only [b64Decode, b64Encode, b64CharVal_b64Char _ h1, b64CharVal_b64Char _ h2,
        b64CharVal_b64Char _ h3, b64CharVal_b64Char _ h4, if_neg hne3, if_neg hne4,
        Except.map, e1, e2, e3]
    | d :: rest =>
      have ih : b64Decode (b64Encode (d :: rest)) = .ok (d :: rest) :=
        b64Decode_b64Encode (d :: rest) (fun x hx => h x (by simp [hx]))
      show b64Decode (b64Char (a / 4) :: b64Char (a % 4 * 16 + b / 16) ::
        b64Char (b % 16 * 4 + c / 64) :: b64Char (c % 64) :: b64Encode (d :: rest)) = _
      simp only [b64Decode, b64CharVal_b64Char _ h1, b64CharVal_b64Char _ h2,
        b64CharVal_b64Char _ h3, b64CharVal_b64Char _ h4, if_neg hne3, if_neg hne4, ih,
        Except.map, e1, e2, e3]

theorem length_aesEncryptBlock (key block : List Nat) :
    (aesEncryptBlock key block).length = 16 := by
  simp [aesEncryptBlock, aesFinalRound, addRoundKey]

theorem mem_aesEncryptBlock_lt {key block : List Nat} {b : Nat}
    (h : b ∈ aesEncryptBlock key block) : b < 256 := by
  simp only [aesEncryptBlock, aesFinalRound, addRoundKey, List.mem_map] at h
  obtain ⟨i, _, hi⟩ := h
  rw [← hi]
  exact Nat.mod_lt _ (by norm_num)

theorem length_flatten_map_range {f : Nat → List Nat} (hf : ∀ i, (f i).length = 16) :
    ∀ m, (((List.range m).map f).flatten).length = 16 * m := by
  intro m
  induction m with
  | zero => simp
  | succ m ih =>
    rw [List.range_succ, List.map_append, List.flatten_append]
    simp only [List.length_append, ih, List.map_cons, List.map_nil, List.flatten,
      List.flatten_nil, List.append_nil, hf]
    ring

theorem length_gcmKeystream (key nonce : List Nat) (n : Nat) :
    (gcmKeystream key nonce n).length = n := by
  rw [gcmKeystream, List.length_take,
    length_flatten_map_range (fun i => length_aesEncryptBlock key (gcmCounterBlock nonce (i + 2)))]
  omega

theorem mem_gcmKeystream_lt {key nonce : List Nat} {n b : Nat}
    (h : b ∈ gcmKeystream key nonce n) : b < 256 := by
  have h2 := List.mem_of_mem_take h
  obtain ⟨l, hl, hbl⟩ := List.mem_flatten.mp h2
  obtain ⟨i, _, hi⟩ := List.mem_map.mp hl
  exact mem_aesEncryptBlock_lt (hi ▸ hbl)

theorem mem_xorBytes_lt : ∀ (a b : List Nat), (∀ x ∈ a, x < 256) → (∀ y ∈ b, y < 256) →
    ∀ z ∈ xorBytes a b, z < 256
  | [], _, _, _ => by simp [xorBytes]
  | _ :: _, [], _, _ => by simp [xorBytes]
  | x :: xs, y :: ys, ha, hb => by
    intro z hz
    simp only [xorBytes, List.zipWith_cons_cons, List.mem_cons] at hz
    rcases hz with rfl | hz
    · have hx : x < 2 ^ 8 := by simpa using ha x (by simp)
      have hy : y < 2 ^ 8 := by simpa using hb y (by simp)
      simpa using Nat.xor_lt_two_pow hx hy
    · exact mem_xorBytes_lt xs ys (fun u hu => ha u (by simp [hu]))
        (fun u hu => hb u (by simp [hu])) z hz

theorem mem_gcmEncrypt_lt {key nonce pt : List Nat} (hpt : ∀ x ∈ pt, x < 256) :
    ∀ b ∈ gcmEncrypt key nonce pt, b < 256 := by
  intro b hb
  rcases List.mem_append.mp hb with h | h
  · exact mem_xorBytes_lt _ _ hpt (fun y hy => mem_gcmKeystream_lt hy) b h
  · exact mem_toBytesBE_lt h

/-- AEAD round trip: decrypting an encryption with the same key and nonce
recovers the plaintext. -/
theorem gcmDecrypt_gcmEncrypt (key nonce pt : List Nat) :
    gcmDecrypt key nonce (gcmEncrypt key nonce pt) = some pt := by
  have hks := length_gcmKeystream key nonce pt.length
  set ks := gcmKeystream key nonce pt.length with hksdef
  set ct := xorBytes pt ks with hctdef
  have hct : ct.length = pt.length := by
    rw [hctdef, length_xorBytes, hks]; omega
  set tg := gcmTag key nonce ct with htgdef
  have htg : tg.length = 16 := length_toBytesBE 16 _
  have hdl : (ct ++ tg).length = pt.length + 16 := by simp [hct, htg]
  have hsub : (ct ++ tg).length - 16 = ct.length := by omega
  have htake : (ct ++ tg).take ((ct ++ tg).length - 16) = ct := by
    rw [hsub, List.take_left]
  have hdrop : (ct ++ tg).drop ((ct ++ tg).length - 16) = tg := by
    rw [hsub, List.drop_left]
  show gcmDecrypt key nonce (ct ++ tg) = some pt
  rw [gcmDecrypt, if_neg (by omega), htake, hdrop, if_pos htgdef.symm, hct, ← hksdef,
    hctdef, xorBytes_cancel pt ks (by rw [hks])]

/-- Round trip of the codec for valid UTF-8 data and a 12-byte nonce. -/
theorem decrypt_data_encrypt_data (data key nonce : List Nat)
    (hdata : ∀ b ∈ data, b < 256) (hu : utf8Valid data = true)
    (hnlen : nonce.length = 12) (hnb : ∀ b ∈ nonce, b < 256) :
    decrypt_data (encrypt_data data key nonce).1 (encrypt_data data key nonce).2 key
      = .ok data := by
  have h1 : b64Decode (b64Encode (gcmEncrypt key nonce data)) = .ok (gcmEncrypt key nonce data) :=
    b64Decode_b64Encode _ (mem_gcmEncrypt_lt hdata)
  have h2 : b64Decode (b64Encode nonce) = .ok nonce := b64Decode_b64Encode _ hnb
  simp only [encrypt_data, decrypt_data, h1, h2, hnlen, if_pos, gcmDecrypt_gcmEncrypt, hu,
    if_true, reduceIte]

/-- Fail-closed behaviour: whenever the tag recomputed under the supplied key
and nonce differs from the stored tag, decryption returns the decryption
error and no plaintext. -/
theorem decrypt_data_tag_mismatch (d nb key : List Nat)
    (hd : ∀ b ∈ d, b < 256) (hnb : ∀ b ∈ nb, b < 256) (hlen : nb.length = 12)
    (hds : 16 ≤ d.length)
    (hne : gcmTag key nb (d.take (d.length - 16)) ≠ d.drop (d.length - 16)) :
    decrypt_data (b64Encode d) (b64Encode nb) key = .error "Decryption failed" := by
  have h1 := b64Decode_b64Encode d hd
  have h2 := b64Decode_b64Encode nb hnb
  simp only [decrypt_data, h1, h2, hlen, reduceIte, gcmDecrypt,
    if_neg (by omega : ¬ d.length < 16), if_neg hne]

/-- Tag collisions across distinct 256-bit keys necessarily exist: the map
from the 2^256 keys to the 2^128 possible tags (for a fixed nonce and the
empty ciphertext) cannot be injective. -/
theorem exists_tag_collision : ∃ k1 k2 : List Nat, k1.length = 32 ∧ k2.length = 32 ∧
    (∀ b ∈ k1, b < 256) ∧ (∀ b ∈ k2, b < 256) ∧ k1 ≠ k2 ∧
    gcmTag k1 (List.replicate 12 0) [] = gcmTag k2 (List.replicate 12 0) [] := by
  obtain ⟨a, b, hne, heq⟩ := Fintype.exists_ne_map_eq_of_card_lt
    (fun k : Fin (2 ^ 256) =>
      (⟨gcmTagNat (toBytesLE 32 k.val) (List.replicate 12 0) [] % 2 ^ 128,
        Nat.mod_lt _ (by positivity)⟩ : Fin (2 ^ 128)))
    (by
      simp only [Fintype.card_fin]
      exact Nat.pow_lt_pow_right one_lt_two (by norm_num))
  have hpow : (256 : Nat) ^ 32 = 2 ^ 256 := by norm_num
  have h16 : (256 : Nat) ^ 16 = 2 ^ 128 := by norm_num
  refine ⟨toBytesLE 32 a.val, toBytesLE 32 b.val, length_toBytesLE _ _, length_toBytesLE _ _,
    fun x hx => mem_toBytesLE_lt hx, fun x hx => mem_toBytesLE_lt hx, ?_, ?_⟩
  · intro hkeq
    refine hne (Fin.ext (toBytesLE_injOn ?_ ?_ hkeq))
    · rw [hpow]; exact a.isLt
    · rw [hpow]; exact b.isLt
  · have hmod : gcmTagNat (toBytesLE 32 a.val) (List.replicate 12 0) [] % 2 ^ 128
        = gcmTagNat (toBytesLE 32 b.val) (List.replicate 12 0) [] % 2 ^ 128 :=
      congrArg Fin.val heq
    rw [gcmTag, gcmTag, ← toBytesBE_mod 16, h16]
    conv_rhs => rw [← toBytesBE_mod 16, h16]
    rw [hmod]

/-- There are two distinct well-formed 32-byte keys such that a vault
encrypted under the first decrypts successfully under the second: the
pure function `decrypt_data` cannot reject every wrong key. -/
theorem wrong_key_decrypt_succeeds : ∃ k1 k2 : List Nat,
    k1.length = 32 ∧ k2.length = 32 ∧ k1 ≠ k2 ∧
    decrypt_data (encrypt_data [] k1 (List.replicate 12 0)).1
      (encrypt_data [] k1 (List.replicate 12 0)).2 k2 = .ok [] := by
  obtain ⟨k1, k2, hl1, hl2, _hb1, _hb2, hne, htag⟩ := exists_tag_collision
  refine ⟨k1, k2, hl1, hl2, hne, ?_⟩
  have hct : gcmEncrypt k1 (List.replicate 12 0) [] = gcmTag k1 (List.replicate 12 0) [] := by
    simp [gcmEncrypt, xorBytes]
  have hlt : (gcmTag k1 (List.replicate 12 0) []).length = 16 := length_toBytesBE 16 _
  have hdec1 : b64Decode (b64Encode (gcmTag k1 (List.replicate 12 0) [])) =
      .ok (gcmTag k1 (List.replicate 12 0) []) := by
    refine b64Decode_b64Encode _ (fun x hx => ?_)
    rw [gcmTag] at hx
    exact mem_toBytesBE_lt hx
  have hdec2 : b64Decode (b64Encode (List.replicate 12 0)) = .ok (List.replicate 12 0) :=
    b64Decode_b64Encode _ (by decide)
  have hgcm : gcmDecrypt k2 (List.replicate 12 0) (gcmTag k1 (List.replicate 12 0) []) =
      some [] := by
    rw [gcmDecrypt, if_neg (by omega), hlt]
    norm_num
    exact ⟨htag.symm, rfl⟩
  simp only [encrypt_data, hct, decrypt_data, hdec1, hdec2, List.length_replicate, reduceIte,
    hgcm]
  rfl

/-! ### Correctness of the substring search -/

theorem strContains_iff (hay needle : List Char) :
    strContains hay needle = true ↔ needle <:+: hay := by
  induction hay with
  | nil => simp [strContains, List.isEmpty_iff]
  | cons h t ih =>
    simp [strContains, Bool.or_eq_true, List.isPrefixOf_iff_prefix, ih, List.infix_cons_iff]

theorem searchMatch_eq_decide (query : List Char) (e : PasswordEntry) :
    (strContains (lowerStr e.title) (lowerStr query) ||
     strContains (lowerStr e.username) (lowerStr query) ||
     (match e.url with
      | some u => strContains (lowerStr u) (lowerStr query)
      | none => false)) = decide (SpecMatch query e) := by
  rcases hu : e.url with _ | u
  · rw [Bool.eq_iff_iff]
    simp [SpecMatch, hu, strContains_iff]
  · rw [Bool.eq_iff_iff]
    simp [SpecMatch, hu, strContains_iff, or_assoc]

/-- C8: `search_entries` keeps exactly the entries matched case-insensitively
on title, username or URL; the empty query keeps everything; the container
order is preserved (the result is a sublist of the entries). -/
theorem C8_search_filter (query : List Char) (entries : List PasswordEntry) :
    searchStore query entries = entries.filter (fun e => decide (SpecMatch query e)) ∧
    (query = [] → searchStore query entries = entries) ∧
    (searchStore query entries).Sublist entries := by
  refine ⟨?_, ?_, ?_⟩
  · rcases query with _ | ⟨c, q⟩
    · rw [searchStore]
      simp only [List.isEmpty_nil, if_true]
      symm
      rw [List.filter_eq_self]
      intro e _
      simp [SpecMatch, lowerStr]
    · rw [searchStore]
      simp only [List.isEmpty_cons, Bool.false_eq_true, if_false]
      exact List.filter_congr (fun e _ => searchMatch_eq_decide (c :: q) e)
  · intro h
    subst h
    simp [searchStore]
  · rw [searchStore]
    split
    · exact List.Sublist.refl _
    · exact List.filter_sublist _

/-! ### The strength formula -/

/-- C4 (amended): `calculate_password_strength` computes exactly the spec's
formula with the triple-repeat check on the original character sequence. -/
theorem C4_strength_formula (pw : List Char) :
    calculate_password_strength pw = spec_password_strength_amended pw := by
  simp only [calculate_password_strength, spec_password_strength_amended]
  have hd : (pw.dedup.length > utf8Len pw / 2) ↔ (2 * pw.dedup.length > utf8Len pw) := by
    omega
  simp only [hd]
  by_cases hp : (strContains (lowerStr pw) "password".toList
      || strContains (lowerStr pw) "123456".toList || hasTripleRepeat pw) = true
  · simp only [if_pos hp]
  · simp only [if_neg hp, Nat.sub_zero]

/-- C4 counterexample: on `"AAa"` the code scores 20 (no penalty: the
original characters contain no triple repeat) while the spec formula as
stated scores 0 (the lowercased password is `"aaa"`). -/
theorem C4_counterexample :
    calculate_password_strength ['A', 'A', 'a'] = 20 ∧
    spec_password_strength ['A', 'A', 'a'] = 0 ∧
    calculate_password_strength ['A', 'A', 'a'] ≠ spec_password_strength ['A', 'A', 'a'] := by
  refine ⟨by decide, by decide, by decide⟩

/-! ### The lockout state machine (spec-modelled) -/

theorem sessionAfterFiveFailures_eq (t1 t2 t3 t4 t5 : Nat) :
    sessionAfterFiveFailures t1 t2 t3 t4 t5 =
      { failedAttempts := 5, lockedUntil := some (t5 + lockoutWindow),
        unlocked := false, lastActivity := 0 } := by
  simp [sessionAfterFiveFailures, authenticate, attemptAuth, initialSession,
    maxFailedAttempts, lockoutWindow]

/-- C1: five consecutive failed attempts from process start leave the session
locked out until `t5 + 5 min`; a sixth attempt with the correct password
before that instant fails with `Locked`; once the window has elapsed a
correct password succeeds and resets the failure counter to 0. -/
theorem C1_lockout_behavior (t1 t2 t3 t4 t5 t6 t7 : Nat)
    (h6 : t6 < t5 + lockoutWindow) (h7 : t5 + lockoutWindow ≤ t7) :
    (sessionAfterFiveFailures t1 t2 t3 t4 t5).lockedUntil = some (t5 + lockoutWindow) ∧
    (authenticate t6 true (sessionAfterFiveFailures t1 t2 t3 t4 t5)).1 = .locked ∧
    (authenticate t7 true (sessionAfterFiveFailures t1 t2 t3 t4 t5)).1 = .success ∧
    (authenticate t7 true (sessionAfterFiveFailures t1 t2 t3 t4 t5)).2.failedAttempts = 0 := by
  rw [sessionAfterFiveFailures_eq]
  refine ⟨rfl, ?_, ?_, ?_⟩
  · simp [authenticate, h6]
  · simp [authenticate, attemptAuth, Nat.not_lt.mpr h7]
  · simp [authenticate, attemptAuth, Nat.not_lt.mpr h7]

/-- Witness for C1 at concrete times. -/
theorem C1_lockout_behavior_witness :
    ((100 : Nat) < 0 + lockoutWindow ∧ 0 + lockoutWindow ≤ 300) ∧
    ((sessionAfterFiveFailures 0 0 0 0 0).lockedUntil = some (0 + lockoutWindow) ∧
     (authenticate 100 true (sessionAfterFiveFailures 0 0 0 0 0)).1 = .locked ∧
     (authenticate 300 true (sessionAfterFiveFailures 0 0 0 0 0)).1 = .success ∧
     (authenticate 300 true (sessionAfterFiveFailures 0 0 0 0 0)).2.failedAttempts = 0) :=
  ⟨⟨by decide, by decide⟩,
   C1_lockout_behavior 0 0 0 0 0 100 300 (by decide) (by decide)⟩

/-! ### Generator validation and sampling distribution -/

/-- C6: `generate_password` rejects lengths outside [4,128] with the
invalid-length error; rejects an all-false class selection (at a valid
length) with the no-character-classes error; and for a valid length and at
least one selected class returns exactly `length` characters, all from the
pool built from the selected classes. -/
theorem C6_generate_password (length : Nat)
    (iu il inum isym : Bool) (rng : Nat → Nat) :
    ((length < 4 ∨ 128 < length) →
      generate_password length iu il inum isym rng
        = .error "Password length must be between 4 and 128 characters") ∧
    (4 ≤ length → length ≤ 128 → iu = false → il = false → inum = false → isym = false →
      generate_password length iu il inum isym rng
        = .error "At least one character type must be selected") ∧
    (4 ≤ length → length ≤ 128 →
      (iu = true ∨ il = true ∨ inum = true ∨ isym = true) →
      ∃ pwd, generate_password length iu il inum isym rng = .ok pwd ∧
        pwd.length = length ∧ ∀ c ∈ pwd, c ∈ passwordCharset iu il inum isym) := by
  refine ⟨?_, ?_, ?_⟩
  · intro h
    rw [generate_password, if_pos h]
  · intro h4 h128 hu hl hn hs
    subst hu; subst hl; subst hn; subst hs
    rw [generate_password, if_neg (by omega), if_pos (by decide)]
  · intro h4 h128 hflag
    have hne : passwordCharset iu il inum isym ≠ [] := by
      rcases hflag with h | h | h | h <;> subst h <;>
        simp [passwordCharset, lowercaseChars, uppercaseChars, digitChars, symbolSet]
    have hlen : 0 < (passwordCharset iu il inum isym).length := List.length_pos.mpr hne
    rw [generate_password, if_neg (by omega),
      if_neg (by simp [List.isEmpty_iff, hne])]
    refine ⟨_, rfl, by simp, ?_⟩
    intro c hc
    obtain ⟨i, _, hival⟩ := List.mem_map.mp hc
    have hidx : drawIndex (rng i) (passwordCharset iu il inum isym).length
        < (passwordCharset iu il inum isym).length := Nat.mod_lt _ hlen
    rw [← hival, List.getD_eq_getElem (passwordCharset iu il inum isym) 'a' hidx]
    exact List.getElem_mem hidx

/-- Witness for C6: a 12-character lowercase+digits password. -/
theorem C6_generate_password_witness :
    ((4 : Nat) ≤ 12 ∧ (12 : Nat) ≤ 128 ∧ (false = true ∨ true = true ∨ true = true ∨
      false = true)) ∧
    (∃ pwd, generate_password 12 false true true false (fun _ => 0) = .ok pwd ∧
      pwd.length = 12 ∧ ∀ c ∈ pwd, c ∈ passwordCharset false true true false) :=
  ⟨⟨by decide, by decide, by decide⟩,
   (C6_generate_password 12 false true true false (fun _ => 0)).2.2
     (by decide) (by decide) (by decide)⟩

/-- The count of 32-bit draws selecting index `i` of a 26-character pool. -/
theorem selectionCount_pool26 (i : Nat) (hi : i < 26) :
    selectionCount 26 i = (4294967296 - i + 25) / 26 := by
  have h232 : (2 : Nat) ^ 32 = 4294967296 := by norm_num
  rw [selectionCount]
  have hset : (Finset.range (2 ^ 32)).filter (fun r => drawIndex r 26 = i)
      = (Finset.range ((4294967296 - i + 25) / 26)).image (fun k => 26 * k + i) := by
    ext r
    simp only [Finset.mem_filter, Finset.mem_range, Finset.mem_image, drawIndex, h232]
    constructor
    · rintro ⟨hr, hmod⟩
      refine ⟨r / 26, ?_, ?_⟩ <;> omega
    · rintro ⟨k, hk, rfl⟩
      omega
  rw [hset, Finset.card_image_of_injective _ (fun a b h => by omega), Finset.card_range]

/-- C5: the sampling of `generate_password` is *not* uniform.  With the
26-character lowercase pool, `(next_u32 as usize) % 26` selects index 0
(`'a'`) for 165 191 050 of the 2^32 equally likely draws but index 25
(`'z'`) for only 165 191 049 of them — a modulo bias, contradicting the
claimed exactly-equal selection probability. -/
theorem C5_modulo_bias :
    (passwordCharset false true false false).length = 26 ∧
    selectionCount 26 0 = 165191050 ∧
    selectionCount 26 25 = 165191049 ∧
    selectionCount 26 0 ≠ selectionCount 26 25 := by
  have h0 := selectionCount_pool26 0 (by norm_num)
  have h25 := selectionCount_pool26 25 (by norm_num)
  refine ⟨by decide, ?_, ?_, ?_⟩
  · rw [h0]
  · rw [h25]
  · rw [h0, h25]
    decide

/-! ### Id monotonicity -/

theorem issued_props : ∀ (ops : List VaultOp) (s : PasswordStore),
    StoreInv s → s.next_id + addCount ops < 2 ^ 32 →
    (∀ i ∈ issuedIds s ops, s.next_id ≤ i) ∧
    List.Pairwise (· < ·) (issuedIds s ops) ∧ StoreInv (runOps s ops)
  | [], s, hinv, _ => by
    refine ⟨by simp [issuedIds], by simp [issuedIds], ?_⟩
    simpa [runOps] using hinv
  | .delOp i :: rest, s, hinv, hbound => by
    have hinv2 : StoreInv (deleteEntryStore s i) := by
      intro e he
      simp only [deleteEntryStore] at he ⊢
      exact hinv e ((List.eraseP_sublist _).subset he)
    have ih := issued_props rest (deleteEntryStore s i) hinv2
      (by simpa [deleteEntryStore, addCount] using hbound)
    refine ⟨?_, ?_, ?_⟩
    · intro j hj
      simp only [issuedIds, applyOp] at hj
      exact ih.1 j hj
    · simpa only [issuedIds, applyOp] using ih.2.1
    · simpa only [runOps, List.foldl_cons, applyOp] using ih.2.2
  | .addOp t u p url notes now :: rest, s, hinv, hbound => by
    have hb1 : s.next_id + 1 < 2 ^ 32 := by
      simp only [addCount] at hbound
      omega
    have hnext : ((addEntryStore s t u p url notes now).1).next_id = s.next_id + 1 := by
      simp only [addEntryStore]
      exact Nat.mod_eq_of_lt hb1
    have hinv2 : StoreInv (addEntryStore s t u p url notes now).1 := by
      intro e he
      simp only [addEntryStore, List.mem_append, List.mem_singleton] at he
      rw [StoreInv] at hinv
      rcases he with he | he
      · have := hinv e he
        rw [hnext]
        omega
      · subst he
        rw [hnext]
        simp
    have ih := issued_props rest (addEntryStore s t u p url notes now).1 hinv2 (by
      rw [hnext]
      simp only [addCount] at hbound
      omega)
    refine ⟨?_, ?_, ?_⟩
    · intro j hj
      simp only [issuedIds, applyOp, List.mem_cons] at hj
      rcases hj with rfl | hj
      · exact Nat.le_refl _
      · have := ih.1 j hj
        rw [hnext] at this
        omega
    · rw [show issuedIds s (.addOp t u p url notes now :: rest)
          = s.next_id :: issuedIds (addEntryStore s t u p url notes now).1 rest from rfl]
      refine List.pairwise_cons.mpr ⟨?_, ih.2.1⟩
      intro j hj
      have := ih.1 j hj
      rw [hnext] at this
      omega
    · simpa only [runOps, List.foldl_cons, applyOp] using ih.2.2

/-- C7 (amended): for any sequence of add/delete operations from the default
store in which fewer than `2^32 − 1` ids are issued (the `u32` counter does
not wrap), the issued ids are strictly increasing — each new id exceeds all
ids ever issued, so no id is ever reassigned (`Nodup`) — and `next_id`
strictly exceeds every existing entry id after the run. -/
theorem C7_id_monotonic (ops : List VaultOp) (now : String)
    (hbound : addCount ops + 1 < 2 ^ 32) :
    List.Pairwise (· < ·) (issuedIds (PasswordStore.default now) ops) ∧
    (issuedIds (PasswordStore.default now) ops).Nodup ∧
    StoreInv (runOps (PasswordStore.default now) ops) := by
  have h := issued_props ops (PasswordStore.default now)
    (by intro e he; simp [PasswordStore.default] at he)
    (by simp only [PasswordStore.default]; omega)
  exact ⟨h.2.1, h.2.1.imp (fun hab => Nat.ne_of_lt hab), h.2.2⟩

/-- Witness for C7 at a concrete three-operation sequence. -/
theorem C7_id_monotonic_witness :
    (addCount [demoAddOp, .delOp 1, demoAddOp] + 1 < 2 ^ 32) ∧
    (List.Pairwise (· < ·)
      (issuedIds (PasswordStore.default "t") [demoAddOp, .delOp 1, demoAddOp]) ∧
     (issuedIds (PasswordStore.default "t") [demoAddOp, .delOp 1, demoAddOp]).Nodup ∧
     StoreInv (runOps (PasswordStore.default "t") [demoAddOp, .delOp 1, demoAddOp])) :=
  ⟨by decide, C7_id_monotonic [demoAddOp, .delOp 1, demoAddOp] "t" (by decide)⟩

theorem issuedIds_replicate : ∀ (k : Nat) (s : PasswordStore), s.next_id < 2 ^ 32 →
    issuedIds s (List.replicate k demoAddOp)
      = (List.range k).map (fun j => (s.next_id + j) % 2 ^ 32)
  | 0, _, _ => by simp [issuedIds]
  | k + 1, s, hs => by
    rw [List.replicate_succ]
    have hrec := issuedIds_replicate k (applyOp s demoAddOp) (by
      simp only [applyOp, demoAddOp, addEntryStore]
      exact Nat.mod_lt _ (by positivity))
    rw [show issuedIds s (demoAddOp :: List.replicate k demoAddOp)
        = s.next_id :: issuedIds (applyOp s demoAddOp) (List.replicate k demoAddOp) from rfl]
    rw [hrec]
    have hnext : (applyOp s demoAddOp).next_id = (s.next_id + 1) % 2 ^ 32 := by
      simp [applyOp, demoAddOp, addEntryStore]
    rw [hnext, List.range_succ_eq_map]
    simp only [List.map_cons, List.map_map]
    congr 1
    · rw [Nat.add_zero, Nat.mod_eq_of_lt hs]
    · congr 1
      funext j
      show ((s.next_id + 1) % 2 ^ 32 + j) % 2 ^ 32 = (s.next_id + (j + 1)) % 2 ^ 32
      rw [Nat.mod_add_mod]
      congr 1
      omega

/-- C7 counterexample: after `2^32` consecutive `add` operations the wrapping
`u32` counter issues id 0 (the first add issued id 1), so the issued-id
sequence is not strictly increasing — with release-mode (wrapping) `u32`
arithmetic the claim fails for sequences that exhaust the counter. -/
theorem C7_counterexample :
    (issuedIds (PasswordStore.default "t") (List.replicate (2 ^ 32) demoAddOp))[0]?
      = some 1 ∧
    (issuedIds (PasswordStore.default "t") (List.replicate (2 ^ 32) demoAddOp))[2 ^ 32 - 1]?
      = some 0 ∧
    ¬ List.Pairwise (· < ·)
      (issuedIds (PasswordStore.default "t") (List.replicate (2 ^ 32) demoAddOp)) := by
  have hform := issuedIds_replicate (2 ^ 32) (PasswordStore.default "t")
    (by norm_num [PasswordStore.default])
  simp only [show (PasswordStore.default "t").next_id = 1 from rfl] at hform
  refine ⟨?_, ?_, ?_⟩
  · rw [hform]
    simp
  · rw [hform]
    simp only [List.getElem?_map, List.getElem?_range, show (2 : Nat) ^ 32 - 1 < 2 ^ 32 by
      norm_num, if_pos, Option.map_some]
    norm_num
  · intro hp
    rw [hform] at hp
    have hlen : ((List.range (2 ^ 32)).map (fun j => (1 + j) % 2 ^ 32)).length = 2 ^ 32 := by
      simp
    have h1 : (0 : Nat) < ((List.range (2 ^ 32)).map (fun j => (1 + j) % 2 ^ 32)).length := by
      rw [hlen]; positivity
    have h2 : 2 ^ 32 - 1 < ((List.range (2 ^ 32)).map (fun j => (1 + j) % 2 ^ 32)).length := by
      rw [hlen]; norm_num
    have h3 : (0 : Nat) < 2 ^ 32 - 1 := by norm_num
    have hcmp := List.pairwise_iff_getElem.mp hp 0 (2 ^ 32 - 1) h1 h2 h3
    simp only [List.getElem_map, List.getElem_range] at hcmp
    norm_num at hcmp

/-! ### Codec, setup, save and error-path theorems -/

/-- C2 (amended): for every plaintext (a valid-UTF-8 byte string), 32-byte
key and 12-byte nonce the codec round-trips; and decryption fails with the
decryption error, returning no plaintext, whenever the authentication tag
recomputed under the supplied key and nonce differs from the stored tag
(wrong keys and tampered data are rejected except for the negligible tag
collisions, which necessarily exist). -/
theorem C2_codec_roundtrip (data key nonce : List Nat)
    (hdata : ∀ b ∈ data, b < 256) (hu : utf8Valid data = true)
    (hnlen : nonce.length = 12) (hnb : ∀ b ∈ nonce, b < 256) :
    decrypt_data (encrypt_data data key nonce).1 (encrypt_data data key nonce).2 key
      = .ok data ∧
    (∀ (d nb key2 : List Nat), (∀ b ∈ d, b < 256) → (∀ b ∈ nb, b < 256) →
      nb.length = 12 → 16 ≤ d.length →
      gcmTag key2 nb (d.take (d.length - 16)) ≠ d.drop (d.length - 16) →
      decrypt_data (b64Encode d) (b64Encode nb) key2 = .error "Decryption failed") :=
  ⟨decrypt_data_encrypt_data data key nonce hdata hu hnlen hnb,
   fun d nb key2 hd hnb2 hl hds hne => decrypt_data_tag_mismatch d nb key2 hd hnb2 hl hds hne⟩

/-- Witness for C2 at a concrete plaintext, key and nonce. -/
theorem C2_codec_roundtrip_witness :
    ((∀ b ∈ ([104, 105] : List Nat), b < 256) ∧ utf8Valid [104, 105] = true ∧
      (List.replicate 12 0 : List Nat).length = 12 ∧
      (∀ b ∈ (List.replicate 12 0 : List Nat), b < 256)) ∧
    decrypt_data (encrypt_data [104, 105] (List.replicate 32 0) (List.replicate 12 0)).1
      (encrypt_data [104, 105] (List.replicate 32 0) (List.replicate 12 0)).2
      (List.replicate 32 0) = .ok [104, 105] :=
  ⟨⟨by decide, by decide, by decide, by decide⟩,
   (C2_codec_roundtrip [104, 105] (List.replicate 32 0) (List.replicate 12 0)
     (by decide) (by decide) (by decide) (by decide)).1⟩

/-- C3: every successful `save_password_store` writes a container whose
`nonce` field is the base64 encoding of the nonce freshly sampled for this
encryption (so it differs from the stored one whenever the sampled bytes are
new), while `salt`, `iterations` and `version` are carried over unchanged
from the previous container. -/
theorem C3_save_fresh_nonce (E : Ext) (store : PasswordStore) (pw : List Char)
    (nonce : List Nat) (d : VaultDisk) (prev : EncryptedPasswordStore) (key : List Nat)
    (hprev : d.container = some prev)
    (hver : verify_master_password E pw d = .ok key)
    (hnb : ∀ b ∈ nonce, b < 256) :
    ∃ c2, save_password_store E store pw nonce d = .ok (save_encrypted_store c2 d) ∧
      c2.nonce = b64Encode nonce ∧
      c2.encrypted_data = (encrypt_data (E.serializeStore store) key nonce).1 ∧
      c2.salt = prev.salt ∧ c2.iterations = prev.iterations ∧ c2.version = prev.version ∧
      (b64Decode prev.nonce ≠ .ok nonce → c2.nonce ≠ prev.nonce) := by
  refine ⟨{ prev with
      encrypted_data := (encrypt_data (E.serializeStore store) key nonce).1,
      nonce := (encrypt_data (E.serializeStore store) key nonce).2 },
    ?_, rfl, rfl, rfl, rfl, rfl, ?_⟩
  · simp only [save_password_store, hver, hprev]
  · intro hne hEq
    apply hne
    rw [← hEq]
    exact b64Decode_b64Encode nonce hnb

/-- On the concrete demo disk, `verify_master_password` succeeds. -/
theorem verify_demoDisk :
    verify_master_password stubExt [] demoDisk = .ok (List.replicate 32 0) := by
  simp [verify_master_password, demoDisk, stubExt]

/-- Witness for C3 on the concrete demo disk with a fresh all-ones nonce. -/
theorem C3_save_fresh_nonce_witness :
    (demoDisk.container = some demoContainer ∧
     verify_master_password stubExt [] demoDisk = .ok (List.replicate 32 0) ∧
     (∀ b ∈ (List.replicate 12 1 : List Nat), b < 256)) ∧
    (∃ c2, save_password_store stubExt (PasswordStore.default "t") [] (List.replicate 12 1)
        demoDisk = .ok (save_encrypted_store c2 demoDisk) ∧
      c2.nonce = b64Encode (List.replicate 12 1) ∧
      c2.encrypted_data = (encrypt_data (stubExt.serializeStore (PasswordStore.default "t"))
        (List.replicate 32 0) (List.replicate 12 1)).1 ∧
      c2.salt = demoContainer.salt ∧ c2.iterations = demoContainer.iterations ∧
      c2.version = demoContainer.version ∧
      (b64Decode demoContainer.nonce ≠ .ok (List.replicate 12 1) →
        c2.nonce ≠ demoContainer.nonce)) :=
  ⟨⟨rfl, verify_demoDisk, by decide⟩,
   C3_save_fresh_nonce stubExt (PasswordStore.default "t") [] (List.replicate 12 1) demoDisk
     demoContainer (List.replicate 32 0) rfl verify_demoDisk (by decide)⟩

/-- C9 (amended): `setup_master_password` fails with the weak-master-password
error exactly when the password is shorter than 8 UTF-8 bytes; with at least
8 bytes it writes the verifier (fresh salt and its hash) and an initial
encrypted store that decrypts, under the derived key, to the serialized
default store. -/
theorem C9_setup_master_password (E : Ext) (pw : List Char) (saltStr nonce : List Nat)
    (hu : utf8Valid (E.serializeStore (PasswordStore.default E.now)) = true)
    (hb : ∀ b ∈ E.serializeStore (PasswordStore.default E.now), b < 256)
    (hnlen : nonce.length = 12) (hnb : ∀ b ∈ nonce, b < 256) :
    (setup_master_password E pw saltStr nonce
        = .error "Master password must be at least 8 characters long" ↔ utf8Len pw < 8) ∧
    (8 ≤ utf8Len pw → ∃ d, setup_master_password E pw saltStr nonce = .ok d ∧
      d.masterHash = some { salt := saltStr, hash := E.phc pw saltStr } ∧
      ∃ c, d.container = some c ∧ c.iterations = 100000 ∧ c.version = 1 ∧
        c.salt = b64Encode saltStr ∧
        decrypt_data c.encrypted_data c.nonce (E.kdf pw saltStr)
          = .ok (E.serializeStore (PasswordStore.default E.now))) := by
  constructor
  · by_cases h : utf8Len pw < 8
    · simp [setup_master_password, h]
    · simp [setup_master_password, h]
  · intro h8
    rw [setup_master_password, if_neg (by omega)]
    refine ⟨_, rfl, rfl, ?_⟩
    refine ⟨_, rfl, rfl, rfl, rfl, ?_⟩
    exact decrypt_data_encrypt_data _ _ _ hb hu hnlen hnb

/-- Witness for C9 with an 8-byte password and the stub externals. -/
theorem C9_setup_master_password_witness :
    ((utf8Valid (stubExt.serializeStore (PasswordStore.default stubExt.now)) = true) ∧
     (∀ b ∈ stubExt.serializeStore (PasswordStore.default stubExt.now), b < 256) ∧
     (List.replicate 12 0 : List Nat).length = 12 ∧
     (∀ b ∈ (List.replicate 12 0 : List Nat), b < 256)) ∧
    ((setup_master_password stubExt "password".toList [] (List.replicate 12 0)
        = .error "Master password must be at least 8 characters long"
      ↔ utf8Len "password".toList < 8) ∧
     (8 ≤ utf8Len "password".toList →
      ∃ d, setup_master_password stubExt "password".toList [] (List.replicate 12 0) = .ok d ∧
        d.masterHash = some { salt := [], hash := stubExt.phc "password".toList [] } ∧
        ∃ c, d.container = some c ∧ c.iterations = 100000 ∧ c.version = 1 ∧
          c.salt = b64Encode [] ∧
          decrypt_data c.encrypted_data c.nonce (stubExt.kdf "password".toList [])
            = .ok (stubExt.serializeStore (PasswordStore.default stubExt.now)))) :=
  ⟨⟨by decide, by decide, by decide, by decide⟩,
   C9_setup_master_password stubExt "password".toList [] (List.replicate 12 0)
     (by decide) (by decide) (by decide) (by decide)⟩

/-- C9 counterexample: the four-character password `"€€€€"` is shorter than
8 characters, yet `setup_master_password` accepts it — the code checks
`password.len()`, the UTF-8 byte count (12 here), not the character count. -/
theorem C9_counterexample :
    (['€', '€', '€', '€'] : List Char).length < 8 ∧
    ∃ d, setup_master_password stubExt ['€', '€', '€', '€'] [] (List.replicate 12 0)
      = .ok d := by
  refine ⟨by decide, ?_⟩
  rw [setup_master_password, if_neg (by decide)]
  exact ⟨_, rfl⟩

/-- C10: when the requested id is absent from the decrypted store,
`update_entry` and `delete_entry` return the entry-not-found error and the
on-disk container is unchanged (no save happens on this error path). -/
theorem C10_not_found_no_write (E : Ext) (id : Nat) (title username password : List Char)
    (url notes : Option (List Char)) (pw : List Char) (nonce : List Nat) (d : VaultDisk)
    (store : PasswordStore)
    (hload : load_password_store E pw d = .ok store)
    (habs : ∀ e ∈ store.entries, e.id ≠ id) :
    update_entry E id title username password url notes pw nonce d
        = (.error "Entry not found", d) ∧
    delete_entry E id pw nonce d = (.error "Entry not found", d) := by
  have hany : store.entries.any (fun e => e.id == id) = false := by
    rw [List.any_eq_false]
    intro e he
    simp only [beq_iff_eq]
    exact habs e he
  constructor
  · simp only [update_entry, hload, hany, Bool.false_eq_true, if_false]
  · simp only [delete_entry, hload, hany, Bool.false_eq_true, if_false]

/-- On the concrete demo disk, `load_password_store` succeeds. -/
theorem load_demoDisk :
    load_password_store stubExt [] demoDisk = .ok (PasswordStore.default "t") := by
  have hdec : decrypt_data demoContainer.encrypted_data demoContainer.nonce
      (List.replicate 32 0) = .ok [] := by
    show decrypt_data (encrypt_data [] (List.replicate 32 0) (List.replicate 12 0)).1
        (encrypt_data [] (List.replicate 32 0) (List.replicate 12 0)).2
        (List.replicate 32 0) = .ok []
    exact decrypt_data_encrypt_data [] _ _ (by simp) rfl (by simp) (by decide)
  simp only [load_password_store, verify_master_password, load_encrypted_store, demoDisk,
    stubExt, if_true, hdec]

/-- Witness for C10 on the concrete demo disk and the absent id 42. -/
theorem C10_not_found_no_write_witness :
    (load_password_store stubExt [] demoDisk = .ok (PasswordStore.default "t") ∧
     (∀ e ∈ (PasswordStore.default "t").entries, e.id ≠ 42)) ∧
    (update_entry stubExt 42 [] [] [] none none [] (List.replicate 12 0) demoDisk
        = (.error "Entry not found", demoDisk) ∧
     delete_entry stubExt 42 [] (List.replicate 12 0) demoDisk
        = (.error "Entry not found", demoDisk)) :=
  ⟨⟨load_demoDisk, by simp [PasswordStore.default]⟩,
   C10_not_found_no_write stubExt 42 [] [] [] none none [] (List.replicate 12 0) demoDisk
     (PasswordStore.default "t") load_demoDisk (by simp [PasswordStore.default])⟩

end Cocoon
